import Mathlib

/-!
Verification of the visualization helpers in `image_blending/show.py`.

The Python module is embedded shallowly:

* a decoded image (`np.ndarray`, H×W×3 of `uint8`) is an `Image` structure:
  a height, a width and a pixel function;
* a color is a triple of naturals;
* `np.random.randint(0, 255, (k, 3))` is modelled by an abstract entropy
  stream `rng : Nat → Nat` reduced modulo 255 — numpy's upper bound is
  exclusive, so every sample lies in `[0, 255)`;
* points carry rational coordinates and Python's `int()` truncation toward
  zero becomes `Int.tdiv` on numerator and denominator;
* `cv2.circle(img, center, r, color, -1)` fills every in-bounds pixel whose
  squared distance to the center is at most `r ^ 2` (cv2 clips drawing to
  the image rectangle);
* `plt` calls are pure presentation side effects and are outside the model:
  `subplot_images` is observed through the per-slot title assignment it
  performs and the error it raises, `draw_points` through the buffer it
  returns when `inline` is false.
-/

namespace ImageBlending

abbrev Color := Nat × Nat × Nat

/-- The fixed 12-color palette `COLORS` of `show.py`. -/
def COLORS : List Color :=
  [(250, 50, 50),
   (50, 250, 50),
   (50, 50, 250),
   (250, 250, 50),
   (250, 50, 250),
   (50, 250, 250),
   (20, 150, 250),
   (150, 20, 250),
   (250, 20, 150),
   (250, 150, 20),
   (20, 250, 150),
   (150, 250, 20)]

/-- One scalar sample of `np.random.randint(0, 255, ...)`: the upper bound
255 is exclusive in numpy, so every sample lies in `[0, 254]`.  The stream
`rng` supplies arbitrary entropy; reduction modulo 255 gives the sampler's
exact support. -/
def npRandint255 (rng : Nat → Nat) (i : Nat) : Nat := rng i % 255

/-- The `k × 3` random draw `np.random.randint(0, 255, (k, 3)).tolist()`:
`k` color triples, each channel an independent sample of the stream. -/
def randomColors (rng : Nat → Nat) (k : Nat) : List Color :=
  (List.range k).map fun i =>
    (npRandint255 rng (3 * i), npRandint255 rng (3 * i + 1), npRandint255 rng (3 * i + 2))

/-- Embedding of `get_colors(n_colors)` from `show.py`: the first `n_colors` fixed colors
when `n_colors ≤ len(COLORS)`, otherwise all of `COLORS` followed by
`n_colors - len(COLORS)` random colors. -/
def get_colors (rng : Nat → Nat) (n_colors : Nat) : List Color :=
  if n_colors ≤ COLORS.length then COLORS.take n_colors
  else COLORS ++ randomColors rng (n_colors - COLORS.length)

theorem COLORS_length : COLORS.length = 12 := rfl

theorem get_colors_length (rng : Nat → Nat) (n : Nat) : (get_colors rng n).length = n := by
  unfold get_colors
  rw [COLORS_length]
  split
  · rw [List.length_take, COLORS_length]
    omega
  · rw [List.length_append, COLORS_length]
    unfold randomColors
    rw [List.length_map, List.length_range]
    omega

/-- A decoded image buffer: height × width pixels (row-major), each a color
triple.  `pix row col` is the pixel at row `row`, column `col`; only indices
below `height` and `width` are part of the buffer. -/
structure Image where
  height : Nat
  width : Nat
  pix : Nat → Nat → Color

/-- Python `int()` on a rational coordinate: truncation toward zero,
`Int.tdiv` of numerator by denominator. -/
def pyInt (q : ℚ) : Int := q.num.tdiv (q.den : Int)

/-- Membership of pixel `(x, y)` in the filled disk of radius `r` around
`(cx, cy)`. -/
def inDisk (cx cy : Int) (r : Nat) (x y : Int) : Prop :=
  (x - cx) ^ 2 + (y - cy) ^ 2 ≤ (r : Int) ^ 2

instance (cx cy : Int) (r : Nat) (x y : Int) : Decidable (inDisk cx cy r x y) :=
  inferInstanceAs (Decidable ((x - cx) ^ 2 + (y - cy) ^ 2 ≤ (r : Int) ^ 2))

/-- Embedding of `cv2.circle(img, (cx, cy), r, color, -1)`: overwrite every in-bounds
pixel of the filled disk with `color`; drawing is clipped to the image
rectangle, dimensions are unchanged. -/
def cvCircle (img : Image) (cx cy : Int) (r : Nat) (c : Color) : Image :=
  { height := img.height
    width := img.width
    pix := fun row col =>
      if inDisk cx cy r (col : Int) (row : Int) ∧ row < img.height ∧ col < img.width
      then c else img.pix row col }

/-- Point `p` (with rational `(x, y)` coordinates) stamps pixel
`(row, col)`: the pixel lies in the disk of radius `d` around the truncated
center `(int(x), int(y))`. -/
def covers (p : ℚ × ℚ) (d : Nat) (row col : Nat) : Prop :=
  inDisk (pyInt p.1) (pyInt p.2) d (col : Int) (row : Int)

instance (p : ℚ × ℚ) (d row col : Nat) : Decidable (covers p d row col) :=
  inferInstanceAs (Decidable (inDisk (pyInt p.1) (pyInt p.2) d (col : Int) (row : Int)))

/-- Index (into the point list) of the LAST point whose stamped disk
contains pixel `(row, col)`, if any: later points overwrite earlier ones. -/
def lastCover (d : Nat) : List (ℚ × ℚ) → Nat → Nat → Option Nat
  | [], _, _ => Option.none
  | p :: rest, row, col =>
    match lastCover d rest row col with
    | Option.some j => Option.some (j + 1)
    | Option.none => if covers p d row col then Option.some 0 else Option.none

/-- The `for idx, (x, y) in enumerate(points)` loop of `draw_points`:
stamp each point in order onto the accumulated image, point number `idx`
with color `colorOf idx`.  `idx` starts at the given offset so that the
recursion tracks `enumerate`. -/
def stampFrom (d : Nat) (colorOf : Nat → Color) : Image → Nat → List (ℚ × ℚ) → Image
  | img, _, [] => img
  | img, idx, p :: rest =>
    stampFrom d colorOf (cvCircle img (pyInt p.1) (pyInt p.2) d (colorOf idx)) (idx + 1) rest

/-- The `color` argument of `draw_points`: either Python `None` (per-point
palette colors) or a fixed color triple. -/
inductive ColorArg where
  | noColor : ColorArg
  | fixed : Color → ColorArg
deriving DecidableEq

/-- The default value of the `color` parameter in the Python signature of
`draw_points`: the fixed triple `(50, 250, 50)`. -/
def draw_points_color_default : ColorArg := ColorArg.fixed (50, 250, 50)

/-- Embedding of `draw_points` from `show.py` on a decoded image.  `image.copy()` makes
the function work on a private copy, so in this value-semantics embedding
the stamped result is a new `Image` built from the unchanged input.  When
`color` is `None` a palette of `len(points)` colors is computed once and
point `idx` is stamped with `colors[idx]`; otherwise `current_color` stays
the fixed color for every point.  With `inline = true` the result is only
rendered (outside the model) and `None` is returned; with `inline = false`
the stamped buffer is returned. -/
def draw_points (rng : Nat → Nat) (image : Image) (points : List (ℚ × ℚ))
    (diameter : Nat) (color : ColorArg) (inline : Bool) : Option Image :=
  let result :=
    match color with
    | ColorArg.fixed c => stampFrom diameter (fun _ => c) image 0 points
    | ColorArg.noColor =>
      let colors := get_colors rng points.length
      stampFrom diameter (fun idx => colors.getD idx (0, 0, 0)) image 0 points
  if inline then Option.none else Option.some result

theorem stampFrom_height (d : Nat) (colorOf : Nat → Color) :
    ∀ (pts : List (ℚ × ℚ)) (img : Image) (idx : Nat),
      (stampFrom d colorOf img idx pts).height = img.height := by
  intro pts
  induction pts with
  | nil => intro img idx; rfl
  | cons p rest ih => intro img idx; exact ih _ _

theorem stampFrom_width (d : Nat) (colorOf : Nat → Color) :
    ∀ (pts : List (ℚ × ℚ)) (img : Image) (idx : Nat),
      (stampFrom d colorOf img idx pts).width = img.width := by
  intro pts
  induction pts with
  | nil => intro img idx; rfl
  | cons p rest ih => intro img idx; exact ih _ _

/-- Pixel-level characterization of the stamping loop: a pixel holds the
color of the last point covering it (clipped to the image rectangle), and
is untouched when no point covers it. -/
theorem stampFrom_pix (d : Nat) (colorOf : Nat → Color) :
    ∀ (pts : List (ℚ × ℚ)) (img : Image) (idx row col : Nat),
      (stampFrom d colorOf img idx pts).pix row col =
        match lastCover d pts row col with
        | Option.some j =>
          if row < img.height ∧ col < img.width then colorOf (idx + j)
          else img.pix row col
        | Option.none => img.pix row col := by
  intro pts
  induction pts with
  | nil => intro img idx row col; rfl
  | cons p rest ih =>
    intro img idx row col
    show (stampFrom d colorOf (cvCircle img (pyInt p.1) (pyInt p.2) d (colorOf idx))
        (idx + 1) rest).pix row col = _
    rw [ih]
    show (match lastCover d rest row col with
        | Option.some j =>
          if row < img.height ∧ col < img.width then colorOf (idx + 1 + j)
          else (cvCircle img (pyInt p.1) (pyInt p.2) d (colorOf idx)).pix row col
        | Option.none =>
          (cvCircle img (pyInt p.1) (pyInt p.2) d (colorOf idx)).pix row col) = _
    show _ = (match
        (match lastCover d rest row col with
        | Option.some j => Option.some (j + 1)
        | Option.none => if covers p d row col then Option.some 0 else Option.none) with
        | Option.some j =>
          if row < img.height ∧ col < img.width then colorOf (idx + j)
          else img.pix row col
        | Option.none => img.pix row col)
    cases hlc : lastCover d rest row col with
    | some j =>
      by_cases hb : row < img.height ∧ col < img.width
      · simp only [if_pos hb]
        have : idx + 1 + j = idx + (j + 1) := by omega
        rw [this]
      · simp only [if_neg hb, cvCircle]
        rw [if_neg]
        intro hcontra
        exact hb hcontra.2
    | none =>
      by_cases hc : covers p d row col
      · rw [if_pos hc]
        show (if inDisk (pyInt p.1) (pyInt p.2) d (col : Int) (row : Int) ∧
              row < img.height ∧ col < img.width then colorOf idx else img.pix row col) =
            if row < img.height ∧ col < img.width then colorOf (idx + 0) else img.pix row col
        by_cases hb : row < img.height ∧ col < img.width
        · rw [if_pos ⟨hc, hb.1, hb.2⟩, if_pos hb, Nat.add_zero]
        · rw [if_neg fun hcontra => hb hcontra.2, if_neg hb]
      · rw [if_neg hc]
        show (if inDisk (pyInt p.1) (pyInt p.2) d (col : Int) (row : Int) ∧
              row < img.height ∧ col < img.width then colorOf idx else img.pix row col) =
            img.pix row col
        rw [if_neg fun hcontra => hc hcontra.1]

/-- No point covers a pixel exactly when `lastCover` finds nothing there. -/
theorem lastCover_eq_none_iff (d : Nat) :
    ∀ (pts : List (ℚ × ℚ)) (row col : Nat),
      lastCover d pts row col = Option.none ↔ ∀ p ∈ pts, ¬ covers p d row col := by
  intro pts
  induction pts with
  | nil => intro row col; simp [lastCover]
  | cons p rest ih =>
    intro row col
    show (match lastCover d rest row col with
        | Option.some j => Option.some (j + 1)
        | Option.none => if covers p d row col then Option.some 0 else Option.none) =
          Option.none ↔ _
    cases hlc : lastCover d rest row col with
    | some j =>
      simp only [List.mem_cons]
      constructor
      · intro h; exact absurd h (by simp)
      · intro h
        have := (ih row col).2 fun q hq => h q (Or.inr hq)
        rw [this] at hlc
        exact absurd hlc (by simp)
    | none =>
      by_cases hc : covers p d row col
      · simp only [if_pos hc, List.mem_cons]
        constructor
        · intro h; exact absurd h (by simp)
        · intro h; exact absurd hc (h p (Or.inl rfl))
      · simp only [if_neg hc, List.mem_cons, true_iff]
        intro q hq
        rcases hq with rfl | hq
        · exact hc
        · exact (ih row col).1 hlc q hq

theorem stampFrom_pix_of_not_covered (d : Nat) (colorOf : Nat → Color)
    (pts : List (ℚ × ℚ)) (img : Image) (idx row col : Nat)
    (h : ∀ p ∈ pts, ¬ covers p d row col) :
    (stampFrom d colorOf img idx pts).pix row col = img.pix row col := by
  rw [stampFrom_pix, (lastCover_eq_none_iff d pts row col).2 h]

theorem stampFrom_pix_ne_imp_covered (d : Nat) (colorOf : Nat → Color)
    (pts : List (ℚ × ℚ)) (img : Image) (idx row col : Nat)
    (h : (stampFrom d colorOf img idx pts).pix row col ≠ img.pix row col) :
    ∃ p ∈ pts, covers p d row col := by
  by_contra hno
  push_neg at hno
  exact h (stampFrom_pix_of_not_covered d colorOf pts img idx row col hno)

theorem lastCover_isSome_of_covered (d : Nat) (pts : List (ℚ × ℚ)) (row col : Nat)
    (h : ∃ p ∈ pts, covers p d row col) :
    ∃ j, lastCover d pts row col = Option.some j := by
  cases hlc : lastCover d pts row col with
  | some j => exact ⟨j, rfl⟩
  | none =>
    obtain ⟨p, hp, hc⟩ := h
    exact absurd hc ((lastCover_eq_none_iff d pts row col).1 hlc p hp)

theorem stampFrom_pix_of_lastCover (d : Nat) (colorOf : Nat → Color)
    (pts : List (ℚ × ℚ)) (img : Image) (row col j : Nat)
    (hrow : row < img.height) (hcol : col < img.width)
    (h : lastCover d pts row col = Option.some j) :
    (stampFrom d colorOf img 0 pts).pix row col = colorOf j := by
  rw [stampFrom_pix, h]
  show (if row < img.height ∧ col < img.width then colorOf (0 + j) else img.pix row col) = _
  rw [if_pos ⟨hrow, hcol⟩, Nat.zero_add]

/-- The `titles` argument of `subplot_images`: Python `None`, a single
string, or a list of strings. -/
inductive Titles where
  | noTitle : Titles
  | single : String → Titles
  | list : List String → Titles
deriving DecidableEq

/-- The errors `subplot_images` can raise in the model: the failed
`assert len(images) <= n_rows * n_columns`, or an `IndexError` from
`titles[i - 1]`, recording the offending index. -/
inductive PyError where
  | assertionError : PyError
  | indexError : Nat → PyError
deriving DecidableEq

/-- The per-slot title reads of the rendering loop of `subplot_images`:
for `i` from the given start, `n` reads of `titles[i]`; an out-of-range
index raises `IndexError` at that index. -/
def readTitles (ts : List (Option String)) : Nat → Nat → Except PyError (List (Option String))
  | _, 0 => Except.ok []
  | i, Nat.succ k =>
    match ts.get? i with
    | Option.none => Except.error (PyError.indexError i)
    | Option.some t =>
      match readTitles ts (i + 1) k with
      | Except.error e => Except.error e
      | Except.ok rest => Except.ok (t :: rest)

/-- Embedding of `subplot_images` from `show.py`, observed through the error it raises
and the titles it assigns to the subplot slots in order.  The
`assert len(images) <= n_rows * n_columns` runs first, before any image is
read or rendered, so the images enter the model only through their count —
`images` is quantified over an arbitrary element type.  A `None` or string
`titles` is broadcast as `[titles] * len(images)`; the loop then reads
`titles[i - 1]` for `i = 1 .. len(images)` (the plotting calls themselves
are presentation effects outside the model). -/
def subplot_images {α : Type} (images : List α) (n_rows n_columns : Nat)
    (titles : Titles) : Except PyError (List (Option String)) :=
  if images.length ≤ n_rows * n_columns then
    let ts : List (Option String) :=
      match titles with
      | Titles.noTitle => List.replicate images.length Option.none
      | Titles.single t => List.replicate images.length (Option.some t)
      | Titles.list l => l.map Option.some
    readTitles ts 0 images.length
  else Except.error PyError.assertionError

theorem readTitles_ne_assertionError (ts : List (Option String)) :
    ∀ (n i : Nat), readTitles ts i n ≠ Except.error PyError.assertionError := by
  intro n
  induction n with
  | zero => intro i h; exact absurd h (by simp [readTitles])
  | succ k ih =>
    intro i
    show (match ts.get? i with
      | Option.none => Except.error (PyError.indexError i)
      | Option.some t =>
        match readTitles ts (i + 1) k with
        | Except.error e => Except.error e
        | Except.ok rest => Except.ok (t :: rest)) ≠ _
    cases hg : ts.get? i with
    | none => simp
    | some t =>
      cases hr : readTitles ts (i + 1) k with
      | error e =>
        intro h
        rw [Except.error.injEq] at h
        rw [h] at hr
        exact ih (i + 1) hr
      | ok rest => simp

theorem readTitles_replicate (v : Option String) :
    ∀ (n i m : Nat), i + n ≤ m →
      readTitles (List.replicate m v) i n = Except.ok (List.replicate n v) := by
  intro n
  induction n with
  | zero => intro i m _; rfl
  | succ k ih =>
    intro i m h
    show (match (List.replicate m v).get? i with
      | Option.none => Except.error (PyError.indexError i)
      | Option.some t =>
        match readTitles (List.replicate m v) (i + 1) k with
        | Except.error e => Except.error e
        | Except.ok rest => Except.ok (t :: rest)) = _
    rw [List.get?_eq_getElem?, List.getElem?_replicate]
    rw [if_pos (by omega)]
    rw [ih (i + 1) m (by omega)]
    rfl

theorem readTitles_map_some_short (ts : List String) :
    ∀ (n i : Nat), i ≤ ts.length → ts.length < i + n →
      readTitles (ts.map Option.some) i n = Except.error (PyError.indexError ts.length) := by
  intro n
  induction n with
  | zero => intro i h1 h2; omega
  | succ k ih =>
    intro i h1 h2
    show (match (ts.map Option.some).get? i with
      | Option.none => Except.error (PyError.indexError i)
      | Option.some t =>
        match readTitles (ts.map Option.some) (i + 1) k with
        | Except.error e => Except.error e
        | Except.ok rest => Except.ok (t :: rest)) = _
    rcases Nat.lt_or_ge i ts.length with hi | hi
    · rw [List.get?_eq_get (by simpa using hi)]
      rw [ih (i + 1) (by omega) (by omega)]
    · have hieq : i = ts.length := by omega
      have : (ts.map Option.some).get? i = Option.none := by
        apply List.get?_eq_none.2
        simpa using hi
      rw [this, hieq]

/-- On nonnegative rationals Python `int()` truncation agrees with the
floor: the fractional part is dropped. -/
theorem pyInt_nonneg_eq_floor (q : ℚ) (h : 0 ≤ q) : pyInt q = ⌊q⌋ := by
  rw [Rat.floor_def]
  exact Int.tdiv_eq_ediv (Rat.num_nonneg.2 h) (Int.natCast_nonneg q.den)

theorem pyInt_neg (q : ℚ) : pyInt (-q) = -(pyInt q) := by
  unfold pyInt
  rw [Rat.neg_num, Rat.neg_den, Int.neg_tdiv]

/-- On nonpositive rationals Python `int()` truncation agrees with the
ceiling: truncation is toward zero. -/
theorem pyInt_nonpos_eq_ceil (q : ℚ) (h : q ≤ 0) : pyInt q = ⌈q⌉ := by
  have h1 : pyInt (-q) = ⌊-q⌋ := pyInt_nonneg_eq_floor _ (by linarith)
  rw [pyInt_neg, Int.floor_neg] at h1
  omega

theorem get_colors_getD_zero (rng : Nat → Nat) (n : Nat) (h : 0 < n) :
    (get_colors rng n).getD 0 (0, 0, 0) = (250, 50, 50) := by
  obtain ⟨m, rfl⟩ : ∃ m, n = m + 1 := ⟨n - 1, by omega⟩
  unfold get_colors
  split
  · rfl
  · rfl

theorem get_colors_getD_twelve (rng : Nat → Nat) (n : Nat) (h : 12 < n) :
    (get_colors rng n).getD 12 (0, 0, 0) =
      (npRandint255 rng 0, npRandint255 rng 1, npRandint255 rng 2) := by
  obtain ⟨m, rfl⟩ : ∃ m, n = m + 13 := ⟨n - 13, by omega⟩
  unfold get_colors
  rw [COLORS_length, if_neg (by omega)]
  have h13 : m + 13 - 12 = m + 1 := by omega
  rw [h13]
  unfold randomColors
  rw [List.range_succ_eq_map]
  rfl

/-- C2: for every `n` with `0 ≤ n ≤ 12`, `get_colors n` returns exactly the
first `n` entries of the fixed 12-color palette, in the palette's order, and
deterministically: the result does not depend on the entropy stream, so no
randomness is involved. -/
theorem C2_get_colors_first_entries (rng rng' : Nat → Nat) (n : Nat) (h : n ≤ 12) :
    get_colors rng n = COLORS.take n ∧ get_colors rng n = get_colors rng' n := by
  have h1 : ∀ r : Nat → Nat, get_colors r n = COLORS.take n := by
    intro r
    unfold get_colors
    rw [COLORS_length, if_pos h]
  exact ⟨h1 rng, (h1 rng).trans (h1 rng').symm⟩

theorem C2_witness :
    (5 : Nat) ≤ 12 ∧
      (get_colors (fun i => i) 5 = COLORS.take 5 ∧
        get_colors (fun i => i) 5 = get_colors (fun i => i + 7) 5) :=
  ⟨by decide, C2_get_colors_first_entries (fun i => i) (fun i => i + 7) 5 (by decide)⟩

/-- C3 counterexample: the claim says the extra channels are drawn from the
INCLUSIVE range `[0, 255]`, but `np.random.randint(0, 255, ...)` excludes
its upper bound, so the value 255 is never produced: no entropy stream makes
any sample equal 255. -/
theorem C3_counterexample :
    ¬ ∃ (rng : Nat → Nat) (i : Nat), npRandint255 rng i = 255 := by
  rintro ⟨rng, i, h⟩
  have hlt : npRandint255 rng i < 255 := Nat.mod_lt _ (by omega)
  omega

/-- C3 (amended): for every `n > 12`, `get_colors n` returns a list of
length `n` whose first 12 entries are the fixed palette in order, followed
by `n - 12` color triples whose channels lie in the inclusive range
`[0, 254]` — numpy's `randint(0, 255, ...)` upper bound is exclusive. -/
theorem C3_get_colors_extension (rng : Nat → Nat) (n : Nat) (h : 12 < n) :
    (get_colors rng n).length = n ∧
    (get_colors rng n).take 12 = COLORS ∧
    ∀ c ∈ (get_colors rng n).drop 12,
      c.1 ≤ 254 ∧ c.2.1 ≤ 254 ∧ c.2.2 ≤ 254 := by
  refine ⟨get_colors_length rng n, ?_, ?_⟩
  · unfold get_colors
    rw [COLORS_length, if_neg (by omega)]
    exact List.take_left' COLORS_length
  · unfold get_colors
    rw [COLORS_length, if_neg (by omega)]
    rw [List.drop_left' COLORS_length]
    intro c hc
    unfold randomColors at hc
    rw [List.mem_map] at hc
    obtain ⟨i, _, rfl⟩ := hc
    refine ⟨?_, ?_, ?_⟩ <;>
    · show _ % 255 ≤ 254
      omega

theorem C3_witness :
    12 < 14 ∧
      ((get_colors (fun i => 300 + i) 14).length = 14 ∧
        (get_colors (fun i => 300 + i) 14).take 12 = COLORS ∧
        ∀ c ∈ (get_colors (fun i => 300 + i) 14).drop 12,
          c.1 ≤ 254 ∧ c.2.1 ≤ 254 ∧ c.2.2 ≤ 254) :=
  ⟨by decide, C3_get_colors_extension (fun i => 300 + i) 14 (by decide)⟩

/-- C1: `draw_points` with `inline = False` never mutates the caller's
image — the Python code stamps a `.copy()`, which this value-semantics
embedding renders as the result being a new `Image` computed from the
unchanged input — and the returned buffer has the input's shape, equals the
input at every pixel no point's marker disk covers, and differs from it
only at covered pixels. -/
theorem C1_draw_points_frame (rng : Nat → Nat) (I : Image) (pts : List (ℚ × ℚ))
    (d : Nat) (c : ColorArg) :
    ∃ o : Image, draw_points rng I pts d c false = Option.some o ∧
      o.height = I.height ∧ o.width = I.width ∧
      (∀ row col : Nat, (∀ p ∈ pts, ¬ covers p d row col) →
        o.pix row col = I.pix row col) ∧
      (∀ row col : Nat, o.pix row col ≠ I.pix row col →
        ∃ p ∈ pts, covers p d row col) := by
  cases c with
  | fixed c' =>
    exact ⟨_, rfl, stampFrom_height _ _ _ _ _, stampFrom_width _ _ _ _ _,
      fun row col h => stampFrom_pix_of_not_covered _ _ _ _ _ _ _ h,
      fun row col h => stampFrom_pix_ne_imp_covered _ _ _ _ _ _ _ h⟩
  | noColor =>
    exact ⟨_, rfl, stampFrom_height _ _ _ _ _, stampFrom_width _ _ _ _ _,
      fun row col h => stampFrom_pix_of_not_covered _ _ _ _ _ _ _ h,
      fun row col h => stampFrom_pix_ne_imp_covered _ _ _ _ _ _ _ h⟩

theorem C1_witness :
    ∃ o : Image,
      draw_points (fun i => i) { height := 4, width := 4, pix := fun _ _ => (7, 7, 7) }
        [((1 : ℚ), (2 : ℚ))] 1 ColorArg.noColor false = Option.some o ∧
      o.height = ({ height := 4, width := 4, pix := fun _ _ => (7, 7, 7) } : Image).height ∧
      o.width = ({ height := 4, width := 4, pix := fun _ _ => (7, 7, 7) } : Image).width ∧
      (∀ row col : Nat, (∀ p ∈ [((1 : ℚ), (2 : ℚ))], ¬ covers p 1 row col) →
        o.pix row col = (7, 7, 7)) ∧
      (∀ row col : Nat, o.pix row col ≠ (7, 7, 7) →
        ∃ p ∈ [((1 : ℚ), (2 : ℚ))], covers p 1 row col) :=
  C1_draw_points_frame (fun i => i) { height := 4, width := 4, pix := fun _ _ => (7, 7, 7) }
    [((1 : ℚ), (2 : ℚ))] 1 ColorArg.noColor

/-- C4: with `color = None`, `draw_points` generates one palette of exactly
`len(points)` colors and stamps point `i` with palette color `i`: a pixel
whose last covering point has index `j` ends up with palette color `j`.
Point 0 receives the first fixed palette color `(250, 50, 50)`, and
palette entry 12, when present, is the first randomly drawn color (the
first three samples of the entropy stream). -/
theorem C4_auto_palette (rng : Nat → Nat) (I : Image) (pts : List (ℚ × ℚ)) (d : Nat) :
    ∃ o : Image, draw_points rng I pts d ColorArg.noColor false = Option.some o ∧
      (get_colors rng pts.length).length = pts.length ∧
      (∀ row col j : Nat, row < I.height → col < I.width →
        lastCover d pts row col = Option.some j →
        o.pix row col = (get_colors rng pts.length).getD j (0, 0, 0)) ∧
      (0 < pts.length → (get_colors rng pts.length).getD 0 (0, 0, 0) = (250, 50, 50)) ∧
      (12 < pts.length → (get_colors rng pts.length).getD 12 (0, 0, 0) =
        (npRandint255 rng 0, npRandint255 rng 1, npRandint255 rng 2)) := by
  refine ⟨_, rfl, get_colors_length rng pts.length, ?_,
    get_colors_getD_zero rng pts.length, get_colors_getD_twelve rng pts.length⟩
  intro row col j hrow hcol hlc
  exact stampFrom_pix_of_lastCover d _ pts I row col j hrow hcol hlc

/-- Concrete 13-point list used to exercise the auto-palette claim. -/
def ptsW : List (ℚ × ℚ) := (List.range 13).map fun i => ((i : ℚ), (i : ℚ))

theorem C4_witness :
    ∃ o : Image,
      draw_points (fun i => i) { height := 4, width := 4, pix := fun _ _ => (7, 7, 7) }
        ptsW 1 ColorArg.noColor false = Option.some o ∧
      (get_colors (fun i => i) ptsW.length).length = ptsW.length ∧
      (∀ row col j : Nat, row < 4 → col < 4 →
        lastCover 1 ptsW row col = Option.some j →
        o.pix row col = (get_colors (fun i => i) ptsW.length).getD j (0, 0, 0)) ∧
      (0 < ptsW.length →
        (get_colors (fun i => i) ptsW.length).getD 0 (0, 0, 0) = (250, 50, 50)) ∧
      (12 < ptsW.length →
        (get_colors (fun i => i) ptsW.length).getD 12 (0, 0, 0) =
          (npRandint255 (fun i => i) 0, npRandint255 (fun i => i) 1,
            npRandint255 (fun i => i) 2)) :=
  C4_auto_palette (fun i => i) { height := 4, width := 4, pix := fun _ _ => (7, 7, 7) } ptsW 1

/-- C5: with a fixed color triple every stamped pixel receives exactly that
color, and no palette is consulted: the result is independent of the
entropy stream that feeds the random-palette path. -/
theorem C5_fixed_color (rng : Nat → Nat) (I : Image) (pts : List (ℚ × ℚ))
    (d : Nat) (c : Color) :
    ∃ o : Image, draw_points rng I pts d (ColorArg.fixed c) false = Option.some o ∧
      (∀ row col : Nat, row < I.height → col < I.width →
        (∃ p ∈ pts, covers p d row col) → o.pix row col = c) ∧
      ∀ rng' : Nat → Nat,
        draw_points rng' I pts d (ColorArg.fixed c) false =
          draw_points rng I pts d (ColorArg.fixed c) false := by
  refine ⟨_, rfl, ?_, fun rng' => rfl⟩
  intro row col hrow hcol hcov
  obtain ⟨j, hj⟩ := lastCover_isSome_of_covered d pts row col hcov
  exact stampFrom_pix_of_lastCover d _ pts I row col j hrow hcol hj

theorem C5_witness :
    ∃ o : Image,
      draw_points (fun i => i) { height := 4, width := 4, pix := fun _ _ => (7, 7, 7) }
        [((1 : ℚ), (2 : ℚ)), ((3 : ℚ), (0 : ℚ))] 1 (ColorArg.fixed (250, 50, 50)) false =
          Option.some o ∧
      (∀ row col : Nat, row < 4 → col < 4 →
        (∃ p ∈ [((1 : ℚ), (2 : ℚ)), ((3 : ℚ), (0 : ℚ))], covers p 1 row col) →
        o.pix row col = (250, 50, 50)) ∧
      ∀ rng' : Nat → Nat,
        draw_points rng' { height := 4, width := 4, pix := fun _ _ => (7, 7, 7) }
          [((1 : ℚ), (2 : ℚ)), ((3 : ℚ), (0 : ℚ))] 1 (ColorArg.fixed (250, 50, 50)) false =
        draw_points (fun i => i) { height := 4, width := 4, pix := fun _ _ => (7, 7, 7) }
          [((1 : ℚ), (2 : ℚ)), ((3 : ℚ), (0 : ℚ))] 1 (ColorArg.fixed (250, 50, 50)) false :=
  C5_fixed_color (fun i => i) { height := 4, width := 4, pix := fun _ _ => (7, 7, 7) }
    [((1 : ℚ), (2 : ℚ)), ((3 : ℚ), (0 : ℚ))] 1 (250, 50, 50)

/-- C6: `draw_points` places the marker for point `(x, y)` at the center
`(int(x), int(y))` obtained by truncation toward zero — on nonnegative
coordinates the floor, on nonpositive ones the ceiling, so the fractional
part is dropped — and not by rounding to nearest: `3.9` truncates to `3`
although its nearest integer is `4`. -/
theorem C6_truncation (rng : Nat → Nat) (I : Image) (x y : ℚ) (d : Nat) (c : Color) :
    draw_points rng I [(x, y)] d (ColorArg.fixed c) false =
      Option.some (cvCircle I (pyInt x) (pyInt y) d c) ∧
    (∀ q : ℚ, 0 ≤ q → pyInt q = ⌊q⌋) ∧
    (∀ q : ℚ, q ≤ 0 → pyInt q = ⌈q⌉) ∧
    pyInt (39 / 10 : ℚ) = 3 ∧
    pyInt (-(39 / 10) : ℚ) = -3 ∧
    round (39 / 10 : ℚ) = 4 := by
  refine ⟨rfl, pyInt_nonneg_eq_floor, pyInt_nonpos_eq_ceil, ?_, ?_, ?_⟩
  · rw [pyInt_nonneg_eq_floor _ (by norm_num)]
    norm_num [Int.floor_eq_iff]
  · rw [pyInt_nonpos_eq_ceil _ (by norm_num)]
    norm_num [Int.ceil_eq_iff]
  · rw [round_eq]
    norm_num [Int.floor_eq_iff]

theorem C6_witness :
    draw_points (fun i => i) { height := 4, width := 4, pix := fun _ _ => (7, 7, 7) }
        [((39 / 10 : ℚ), (1 : ℚ))] 1 (ColorArg.fixed (250, 50, 50)) false =
      Option.some (cvCircle { height := 4, width := 4, pix := fun _ _ => (7, 7, 7) }
        (pyInt (39 / 10 : ℚ)) (pyInt (1 : ℚ)) 1 (250, 50, 50)) ∧
    (∀ q : ℚ, 0 ≤ q → pyInt q = ⌊q⌋) ∧
    (∀ q : ℚ, q ≤ 0 → pyInt q = ⌈q⌉) ∧
    pyInt (39 / 10 : ℚ) = 3 ∧
    pyInt (-(39 / 10) : ℚ) = -3 ∧
    round (39 / 10 : ℚ) = 4 :=
  C6_truncation (fun i => i) { height := 4, width := 4, pix := fun _ _ => (7, 7, 7) }
    (39 / 10 : ℚ) (1 : ℚ) 1 (250, 50, 50)

/-- C7: the grid display's `assert len(images) <= n_rows * n_columns` runs
before any image is normalized or rendered — here, for every images list of
an arbitrary element type, so the outcome cannot depend on image contents:
too many images fail with the assertion error, and any call with
`len(images) ≤ n_rows * n_columns` passes the check (whatever happens
downstream is never the assertion error). -/
theorem C7_grid_assert {α : Type} (images : List α) (r c : Nat) (titles : Titles) :
    (r * c < images.length →
      subplot_images images r c titles = Except.error PyError.assertionError) ∧
    (images.length ≤ r * c →
      subplot_images images r c titles ≠ Except.error PyError.assertionError) := by
  constructor
  · intro h
    unfold subplot_images
    rw [if_neg (by omega)]
  · intro h
    unfold subplot_images
    rw [if_pos h]
    exact readTitles_ne_assertionError _ _ _

theorem C7_witness :
    (2 * 2 < ([0, 1, 2, 3, 4] : List Nat).length →
      subplot_images ([0, 1, 2, 3, 4] : List Nat) 2 2 Titles.noTitle =
        Except.error PyError.assertionError) ∧
    (([0, 1, 2, 3, 4] : List Nat).length ≤ 2 * 2 →
      subplot_images ([0, 1, 2, 3, 4] : List Nat) 2 2 Titles.noTitle ≠
        Except.error PyError.assertionError) :=
  C7_grid_assert ([0, 1, 2, 3, 4] : List Nat) 2 2 Titles.noTitle

/-- C8: a single title string (or no title at all) is broadcast: the
per-slot titles list is the single value repeated `len(images)` times, and
every slot is assigned exactly that value. -/
theorem C8_title_broadcast {α : Type} (images : List α) (r c : Nat) (t : String)
    (h : images.length ≤ r * c) :
    subplot_images images r c (Titles.single t) =
      Except.ok (List.replicate images.length (Option.some t)) ∧
    subplot_images images r c Titles.noTitle =
      Except.ok (List.replicate images.length Option.none) := by
  constructor <;>
  · unfold subplot_images
    rw [if_pos h]
    exact readTitles_replicate _ _ 0 _ (by omega)

/-- Concrete title value used by the broadcast witness. -/
def titleT : String := "t"

theorem C8_witness :
    ([0, 1, 2] : List Nat).length ≤ 2 * 2 ∧
      (subplot_images ([0, 1, 2] : List Nat) 2 2 (Titles.single titleT) =
        Except.ok (List.replicate 3 (Option.some titleT)) ∧
      subplot_images ([0, 1, 2] : List Nat) 2 2 Titles.noTitle =
        Except.ok (List.replicate 3 Option.none)) :=
  ⟨by decide, C8_title_broadcast ([0, 1, 2] : List Nat) 2 2 titleT (by decide)⟩

/-- C9: a titles LIST shorter than the images list is not validated up
front; the call fails with an out-of-range access when the loop indexes the
titles list at the first image index beyond its length, namely index
`len(titles)`. -/
theorem C9_short_title_list {α : Type} (images : List α) (r c : Nat) (ts : List String)
    (h1 : images.length ≤ r * c) (h2 : ts.length < images.length) :
    subplot_images images r c (Titles.list ts) =
      Except.error (PyError.indexError ts.length) := by
  unfold subplot_images
  rw [if_pos h1]
  exact readTitles_map_some_short ts images.length 0 (by omega) (by omega)

theorem C9_witness :
    ([0, 1, 2] : List Nat).length ≤ 2 * 2 ∧ ([titleT] : List String).length < 3 ∧
      subplot_images ([0, 1, 2] : List Nat) 2 2 (Titles.list [titleT]) =
        Except.error (PyError.indexError ([titleT] : List String).length) :=
  ⟨by decide, by decide,
    C9_short_title_list ([0, 1, 2] : List Nat) 2 2 [titleT] (by decide) (by decide)⟩

/-- C10 (implicit): the default of the `color` parameter of `draw_points`
is the fixed triple `(50, 250, 50)`, not the `None` sentinel: a caller who
omits `color` gets every stamped pixel in that one fixed color, with no
dependence on the entropy stream; the auto-palette only runs on an explicit
`None`. -/
theorem C10_default_color (rng : Nat → Nat) (I : Image) (pts : List (ℚ × ℚ)) (d : Nat) :
    draw_points_color_default = ColorArg.fixed (50, 250, 50) ∧
    draw_points_color_default ≠ ColorArg.noColor ∧
    (∃ o : Image,
      draw_points rng I pts d draw_points_color_default false = Option.some o ∧
      ∀ row col : Nat, row < I.height → col < I.width →
        (∃ p ∈ pts, covers p d row col) → o.pix row col = (50, 250, 50)) ∧
    ∀ rng' : Nat → Nat,
      draw_points rng' I pts d draw_points_color_default false =
        draw_points rng I pts d draw_points_color_default false := by
  refine ⟨rfl, by decide, ⟨_, rfl, ?_⟩, fun rng' => rfl⟩
  intro row col hrow hcol hcov
  obtain ⟨j, hj⟩ := lastCover_isSome_of_covered d pts row col hcov
  exact stampFrom_pix_of_lastCover d _ pts I row col j hrow hcol hj

theorem C10_witness :
    draw_points_color_default = ColorArg.fixed (50, 250, 50) ∧
    draw_points_color_default ≠ ColorArg.noColor ∧
    (∃ o : Image,
      draw_points (fun i => i) { height := 4, width := 4, pix := fun _ _ => (7, 7, 7) }
        [((1 : ℚ), (2 : ℚ))] 1 draw_points_color_default false = Option.some o ∧
      ∀ row col : Nat, row < 4 → col < 4 →
        (∃ p ∈ [((1 : ℚ), (2 : ℚ))], covers p 1 row col) →
        o.pix row col = (50, 250, 50)) ∧
    ∀ rng' : Nat → Nat,
      draw_points rng' { height := 4, width := 4, pix := fun _ _ => (7, 7, 7) }
        [((1 : ℚ), (2 : ℚ))] 1 draw_points_color_default false =
      draw_points (fun i => i) { height := 4, width := 4, pix := fun _ _ => (7, 7, 7) }
        [((1 : ℚ), (2 : ℚ))] 1 draw_points_color_default false :=
  C10_default_color (fun i => i) { height := 4, width := 4, pix := fun _ _ => (7, 7, 7) }
    [((1 : ℚ), (2 : ℚ))] 1

end ImageBlending
